import Mathlib

/-!
Verification development for the gold-price scraper
(`gold_scrape_to_sheet.py`).  The script scrapes product/price rows from a
JavaScript-rendered shop page with an escalation ladder of strategies
(network/embedded JSON walk, DOM heuristic, DOM retry), then merges the
scraped rows into a persisted spreadsheet, deduplicating by
(Date, Product Name) with pandas `drop_duplicates(keep="last")`.

The definitions below are a shallow embedding of that pipeline:

* `Row` models one spreadsheet row with the three columns the script uses.
* `drop_duplicates_keep_last` models
  `DataFrame.drop_duplicates(subset=["Date", "Product Name"], keep="last")`:
  a row is kept exactly when no later row has the same key, and kept rows
  preserve their relative order.
* `upsert_sheet` models the merge in `upsert_sheet`: on an empty persisted
  table the scraped frame is written as-is; otherwise the tables are
  concatenated (existing first, today second) and deduplicated by key.
  The result is the table written back to the worksheet.  Column
  normalisation (synthesising missing columns) is the identity here because
  `Row` already carries exactly the three columns.
* `dict_update` / `dict_insert_all` / `dedup_by_product_name` model the
  name-keyed deduplication both strategies perform before returning: the
  Python `uniq` dict loop in `scrape_once_json` and the JavaScript `Map`
  loop in `extract_rows_from_dom`.  Both have dictionary semantics: the
  key keeps the position of its first insertion and the value of its last
  assignment.
-/

/-- One persisted spreadsheet row: columns `Date`, `Product Name`, `Price`. -/
structure Row where
  date : String
  product_name : String
  price : String
deriving DecidableEq, Repr

/-- The merge key used by `combined.drop_duplicates(subset=["Date", "Product Name"])`. -/
def rowKey (r : Row) : String × String := (r.date, r.product_name)

/-- Does some row of `l` have merge key `k`? -/
def hasKey (k : String × String) (l : List Row) : Bool :=
  l.any (fun s => decide (rowKey s = k))

/-- pandas `drop_duplicates(subset=["Date", "Product Name"], keep="last")`:
keep a row exactly when no later row carries the same key; kept rows stay in
their original relative order. -/
def drop_duplicates_keep_last : List Row → List Row
  | [] => []
  | r :: t =>
    if hasKey (rowKey r) t then drop_duplicates_keep_last t
    else r :: drop_duplicates_keep_last t

/-- The merge step of `upsert_sheet` (the table written back to the sheet):
an empty persisted table is overwritten with the scraped frame as-is;
otherwise `pd.concat([existing, df_today])` followed by
`drop_duplicates(subset=["Date", "Product Name"], keep="last")`. -/
def upsert_sheet (existing df_today : List Row) : List Row :=
  if existing = [] then df_today
  else drop_duplicates_keep_last (existing ++ df_today)

/-- One `[name, price]` candidate produced by an extraction strategy. -/
abbrev NamePrice := String × String

/-- One step of the Python dict / JS `Map` assignment `uniq[name] = price`:
if the key is present its value is overwritten in place, otherwise the pair
is appended. -/
def dict_update (m : List NamePrice) (c : NamePrice) : List NamePrice :=
  if m.any (fun e => decide (e.1 = c.1)) then
    m.map (fun e => if e.1 = c.1 then (e.1, c.2) else e)
  else m ++ [c]

/-- The loop `for name, price in candidates: uniq[name] = price`. -/
def dict_insert_all (m : List NamePrice) : List NamePrice → List NamePrice
  | [] => m
  | c :: rest => dict_insert_all (dict_update m c) rest

/-- Extraction-side deduplication by product name: the `uniq` dict of
`scrape_once_json` and the JS `Map` of `extract_rows_from_dom`.  The key
keeps its first-insertion position; the value is the last one assigned. -/
def dedup_by_product_name (l : List NamePrice) : List NamePrice :=
  dict_insert_all [] l

/-- Helper for `drop_duplicates_first_by_name`: keep each pair whose name
was not seen earlier. -/
def drop_duplicates_first_go (seen : List String) : List NamePrice → List NamePrice
  | [] => []
  | c :: t =>
    if seen.contains c.1 then drop_duplicates_first_go seen t
    else c :: drop_duplicates_first_go (c.1 :: seen) t

/-- pandas `drop_duplicates(subset=["Product Name"])` (default `keep="first"`),
applied by both scrape functions after building the DataFrame: keep the
first occurrence of each name, in order. -/
def drop_duplicates_first_by_name (l : List NamePrice) : List NamePrice :=
  drop_duplicates_first_go [] l

/-!
The structured-data strategy.  `_walk_for_products(obj, found)` walks a
decoded JSON payload: on a dict it looks up a name-like and a price-like
key, possibly appends one `[name, price]` candidate to `found`, and then
recurses into every value; on a list it recurses into every element;
scalars are ignored.

`Json` models the values `resp.json()` / `json.loads` can produce.  Numbers
are modelled as integers (the payloads the claims exercise carry integer
prices; float formatting is irrelevant to every claim).  Dicts and arrays
are modelled with the mutually inductive `JsonFields` / `JsonList` so that
all traversals are plain structural recursions.  Dictionary lookups use
last-assignment-wins semantics, matching Python dict construction.
-/

mutual
inductive Json where
  | str : String → Json
  | num : Int → Json
  | bool : Bool → Json
  | null : Json
  | arr : JsonList → Json
  | obj : JsonFields → Json
inductive JsonList where
  | nil : JsonList
  | cons : Json → JsonList → JsonList
inductive JsonFields where
  | nil : JsonFields
  | cons : String → Json → JsonFields → JsonFields
end

/-- The key/value pairs of a dict payload, in field order. -/
def JsonFields.toList : JsonFields → List (String × Json)
  | .nil => []
  | .cons k v rest => (k, v) :: JsonFields.toList rest

/-- A single-quote character, used by the Python `repr` of strings. -/
def pyQuote : String := (Char.ofNat 39).toString

/-- Python `str.lower()`, over the character list (the candidate keys are
ASCII, so ASCII lowering is faithful here). -/
def pyLower (s : String) : String := ⟨s.data.map Char.toLower⟩

/-- Python `str.strip()`: drop leading and trailing whitespace. -/
def pyStrip (s : String) : String :=
  ⟨((s.data.dropWhile Char.isWhitespace).reverse.dropWhile Char.isWhitespace).reverse⟩

/-- Python `c in s` for a single character `c`. -/
def pyContains (s : String) (c : Char) : Bool := s.data.contains c

/-- Python `re.search(r"\d", s)` viewed as a Boolean: does `s` hold a digit? -/
def pyHasDigit (s : String) : Bool := s.data.any Char.isDigit

mutual
/-- Python `str()` of a decoded JSON value: strings print bare, `True` /
`False` / `None` use their Python spellings, containers print like their
`repr` (string escaping inside `repr` is not modelled; no claim touches it). -/
def pyStr : Json → String
  | .str s => s
  | .num n => toString n
  | .bool b => if b then "True" else "False"
  | .null => "None"
  | .arr l => "[" ++ pyReprList l ++ "]"
  | .obj f => "\x7b" ++ pyReprFields f ++ "\x7d"
/-- Python `repr()` of a decoded JSON value (strings get quoted). -/
def pyReprJ : Json → String
  | .str s => pyQuote ++ s ++ pyQuote
  | .num n => toString n
  | .bool b => if b then "True" else "False"
  | .null => "None"
  | .arr l => "[" ++ pyReprList l ++ "]"
  | .obj f => "\x7b" ++ pyReprFields f ++ "\x7d"
def pyReprList : JsonList → String
  | .nil => ""
  | .cons j .nil => pyReprJ j
  | .cons j rest => pyReprJ j ++ ", " ++ pyReprList rest
def pyReprFields : JsonFields → String
  | .nil => ""
  | .cons k v .nil => pyQuote ++ k ++ pyQuote ++ ": " ++ pyReprJ v
  | .cons k v rest => pyQuote ++ k ++ pyQuote ++ ": " ++ pyReprJ v ++ ", " ++ pyReprFields rest
end

/-- The comprehension `lower = \x7bk.lower(): k for k in obj.keys()\x7d`
followed by `lower.get(lk)`: the original spelling of the last dict key
whose lowercase form is `lk`, if any (later comprehension entries
overwrite earlier ones). -/
def lowerKeyGet (kvs : List (String × Json)) (lk : String) : Option String :=
  (kvs.map Prod.fst).reverse.find? (fun k => pyLower k == lk)

/-- Dict item access `obj[k]` (dict semantics: the last assigned value). -/
def dictGet (kvs : List (String × Json)) (k : String) : Option Json :=
  ((kvs.reverse.find? (fun kv => kv.1 == k)).map Prod.snd)

/-- The name-key candidate list of `_walk_for_products`. -/
def name_key_candidates : List String :=
  ["name", "title", "productname", "product_name", "label", "sku_name"]

/-- The price-key candidate list of `_walk_for_products`. -/
def price_key_candidates : List String :=
  ["price", "saleprice", "sellingprice", "amount", "value", "mrp", "offerprice"]

/-- `next(gen, None)` on the generator `(lower.get(k) for k in candidates)`:
Python `next` returns the FIRST value the generator yields — here
`lower.get` of the first candidate, even when that is `None`.  The default
is used only when the candidate list is empty.  (It does NOT scan for the
first candidate that is present.) -/
def pyNextDefaultNone (generated : List (Option String)) : Option String :=
  generated.headD none

/-- The rupee currency marker the script looks for. -/
def rupee : Char := '₹'

/-- `price = f"₹\x7bprice_val\x7d"` for ints (and bools, which are ints in
Python), `price = str(price_val)` otherwise. -/
def formatPrice : Json → String
  | .num n => rupee.toString ++ toString n
  | .bool b => rupee.toString ++ (if b then "True" else "False")
  | v => pyStr v

/-- The dict-level body of `_walk_for_products`: compute `name_key` and
`price_key` via `next(..., None)`, and if both are truthy, build the
candidate `[name, price]` subject to the acceptance test
`name and (("₹" in price) or re.search(r"\d", price))`. -/
def objHit (fields : JsonFields) : List NamePrice :=
  let kvs := JsonFields.toList fields
  let name_key := pyNextDefaultNone (name_key_candidates.map (fun k => lowerKeyGet kvs k))
  let price_key := pyNextDefaultNone (price_key_candidates.map (fun k => lowerKeyGet kvs k))
  match name_key, price_key with
  | some nk, some pk =>
    -- `if name_key and price_key:` — Python string truthiness
    if nk ≠ "" ∧ pk ≠ "" then
      match dictGet kvs nk, dictGet kvs pk with
      | some nv, some pv =>
        let name := pyStrip (pyStr nv)
        let price := formatPrice pv
        if name ≠ "" ∧ (pyContains price rupee ∨ pyHasDigit price) then
          [(name, price)]
        else []
      | _, _ => []  -- unreachable: both keys are spellings of present dict keys
    else []
  | _, _ => []

mutual
/-- `_walk_for_products(obj, found)`: the accumulated candidate list after
walking `obj`.  On a dict, the possible hit is appended first, then every
value is walked in field order; on a list every element is walked in order;
scalars contribute nothing. -/
def _walk_for_products : Json → List NamePrice → List NamePrice
  | .obj fields, found => walkFields fields (found ++ objHit fields)
  | .arr elems, found => walkElems elems found
  | .str _, found => found
  | .num _, found => found
  | .bool _, found => found
  | .null, found => found
/-- The loop `for v in obj.values(): _walk_for_products(v, found)`. -/
def walkFields : JsonFields → List NamePrice → List NamePrice
  | .nil, found => found
  | .cons _ v rest, found => walkFields rest (_walk_for_products v found)
/-- The loop `for it in obj: _walk_for_products(it, found)`. -/
def walkElems : JsonList → List NamePrice → List NamePrice
  | .nil, found => found
  | .cons j rest, found => walkElems rest (_walk_for_products j found)
end

/-!
Fuel-indexed variant of the walk, used to state termination (claim C10):
every call consumes exactly one unit of fuel per payload node entered, and
`Json.nodes` fuel is always enough — the walk visits each node exactly
once. -/

mutual
/-- Number of payload nodes (dicts, arrays and scalars) in a JSON value. -/
def Json.nodes : Json → Nat
  | .obj fields => 1 + JsonFields.nodes fields
  | .arr elems => 1 + JsonList.nodes elems
  | .str _ => 1
  | .num _ => 1
  | .bool _ => 1
  | .null => 1
def JsonFields.nodes : JsonFields → Nat
  | .nil => 0
  | .cons _ v rest => Json.nodes v + JsonFields.nodes rest
def JsonList.nodes : JsonList → Nat
  | .nil => 0
  | .cons j rest => Json.nodes j + JsonList.nodes rest
end

mutual
/-- Fuelled walk: consumes one unit of fuel per visited payload node and
returns `none` when the fuel runs out, otherwise the remaining fuel and the
accumulated candidates. -/
def walkF : Nat → Json → List NamePrice → Option (Nat × List NamePrice)
  | 0, _, _ => none
  | fuel + 1, .obj fields, found => walkFieldsF fuel fields (found ++ objHit fields)
  | fuel + 1, .arr elems, found => walkElemsF fuel elems found
  | fuel + 1, .str _, found => some (fuel, found)
  | fuel + 1, .num _, found => some (fuel, found)
  | fuel + 1, .bool _, found => some (fuel, found)
  | fuel + 1, .null, found => some (fuel, found)
def walkFieldsF : Nat → JsonFields → List NamePrice → Option (Nat × List NamePrice)
  | fuel, .nil, found => some (fuel, found)
  | fuel, .cons _ v rest, found =>
    match walkF fuel v found with
    | none => none
    | some (fuel2, found2) => walkFieldsF fuel2 rest found2
def walkElemsF : Nat → JsonList → List NamePrice → Option (Nat × List NamePrice)
  | fuel, .nil, found => some (fuel, found)
  | fuel, .cons j rest, found =>
    match walkF fuel j found with
    | none => none
    | some (fuel2, found2) => walkElemsF fuel2 rest found2
end

/-!
The retry orchestration (`scrape_with_retry`) and the `__main__` block.

Browser rendering is external: a `PageWorld` abstracts what the target page
yields to a browser launched with a given `headless` flag — the JSON
payloads captured from network responses plus embedded script blocks, and
the raw `[name, price]` pairs the DOM-extraction JavaScript collects before
its `Map` dedup.  Sleeps, scrolling, overlay dismissal and debug artifacts
have no bearing on the data flow and are not modelled.

A crucial detail of the source is modelled explicitly: the module-level
constant `HEADLESS` is computed ONCE, at import time, from the process
environment (`os.getenv("HEADLESS", "true").lower() != "false"`), and
`p.chromium.launch(headless=HEADLESS, ...)` always reads that module-level
constant.  The retry branch mutates `os.environ["HEADLESS"]` but never
rebinds the module-level constant, so the mutation cannot reach any
`launch` call.  `scrape_with_retry` therefore threads the environment as
explicit state (`envAfter`) while every launch receives the import-time
value; the flags actually passed to the launches are recorded in
`launches`.
-/

/-- `os.environ`, as an association list; later entries shadow earlier ones. -/
abbrev Env := List (String × String)

/-- `os.getenv(k, d)`. -/
def getenv (env : Env) (k d : String) : String :=
  (((env.reverse.find? (fun kv => kv.1 == k)).map Prod.snd).getD d)

/-- `os.environ[k] = v`. -/
def setenv (env : Env) (k v : String) : Env := env ++ [(k, v)]

/-- The module-level constant
`HEADLESS = os.getenv("HEADLESS", "true").lower() != "false"`,
evaluated once over the import-time environment. -/
def HEADLESS (env0 : Env) : Bool :=
  decide (pyLower (getenv env0 "HEADLESS" "true") ≠ "false")

/-- What the external page yields to a browser launched with a given
`headless` flag. -/
structure PageWorld where
  /-- Captured `application/json` response bodies plus embedded
  LD+JSON / `__NEXT_DATA__` blocks, in the order they are walked. -/
  jsonPayloads : Bool → List Json
  /-- The raw `[name, price]` pairs the extraction script collects from the
  rendered DOM, before its `Map` dedup. -/
  domRaw : Bool → List NamePrice

/-- The JS in `extract_rows_from_dom`, after its `Map` dedup by name. -/
def extract_rows_from_dom (w : PageWorld) (headless_flag : Bool) : List NamePrice :=
  dedup_by_product_name (w.domRaw headless_flag)

/-- Attach the `Date` column: `df.insert(0, "Date", ...)`, applied only to a
non-empty frame (an empty frame has no rows to carry a date anyway). -/
def attachDate (d : String) (rows : List NamePrice) : List Row :=
  rows.map (fun np => ⟨d, np.1, np.2⟩)

/-- `scrape_once_json`: launch a browser with the module-level `HEADLESS`
flag, walk every captured JSON payload accumulating candidates, dedup by
product name (the `uniq` dict), build the DataFrame (pandas
`drop_duplicates` on `Product Name`), and date it.  Returns the frame and
the headless flag the launch used. -/
def scrape_once_json (moduleHeadless : Bool) (w : PageWorld) (d : String) :
    List Row × Bool :=
  let candidates := (w.jsonPayloads moduleHeadless).foldl
    (fun acc blob => _walk_for_products blob acc) []
  let rows := drop_duplicates_first_by_name (dedup_by_product_name candidates)
  (attachDate d rows, moduleHeadless)

/-- `scrape_once_dom`: launch a browser with the module-level `HEADLESS`
flag, run the DOM extraction script, build the DataFrame, and date it.
Returns the frame and the headless flag the launch used. -/
def scrape_once_dom (moduleHeadless : Bool) (w : PageWorld) (d : String) :
    List Row × Bool :=
  let rows := drop_duplicates_first_by_name (extract_rows_from_dom w moduleHeadless)
  (attachDate d rows, moduleHeadless)

/-- The outcome of one `scrape_with_retry()` call. -/
structure RetryTrace where
  /-- The returned DataFrame. -/
  result : List Row
  /-- The `headless` flag passed to each browser launch, in order. -/
  launches : List Bool
  /-- `os.environ` when the call returns. -/
  envAfter : Env
deriving Repr, DecidableEq

/-- `scrape_with_retry()`: JSON strategy first, then DOM, then — when the
module-level `HEADLESS` is true — one more DOM pass meant to be headful.
The retry branch sets `os.environ["HEADLESS"] = "false"` and restores it,
but `scrape_once_dom` launches with the module-level constant, which those
writes do not rebind. -/
def scrape_with_retry (env0 : Env) (w : PageWorld) (d : String) : RetryTrace :=
  let hl := HEADLESS env0
  let df1 := (scrape_once_json hl w d).1
  if df1 ≠ [] then ⟨df1, [(scrape_once_json hl w d).2], env0⟩ else
  let df2 := (scrape_once_dom hl w d).1
  if df2 ≠ [] then ⟨df2, [(scrape_once_json hl w d).2, (scrape_once_dom hl w d).2], env0⟩ else
  if hl then
    let env1 := setenv env0 "HEADLESS" "false"
    let df3 := (scrape_once_dom hl w d).1
    let env2 := setenv env1 "HEADLESS" "true"
    if df3 ≠ [] then
      ⟨df3, [(scrape_once_json hl w d).2, (scrape_once_dom hl w d).2, (scrape_once_dom hl w d).2], env2⟩
    else ⟨[], [(scrape_once_json hl w d).2, (scrape_once_dom hl w d).2, (scrape_once_dom hl w d).2], env2⟩
  else ⟨[], [(scrape_once_json hl w d).2, (scrape_once_dom hl w d).2], env0⟩

/-- The escalation ladder actually executed: the DataFrames of the attempts
in order (JSON strategy, DOM strategy, and — when the module-level flag is
true — the DOM retry). -/
def ladder (env0 : Env) (w : PageWorld) (d : String) : List (List Row) :=
  let hl := HEADLESS env0
  [(scrape_once_json hl w d).1, (scrape_once_dom hl w d).1] ++
    (if hl then [(scrape_once_dom hl w d).1] else [])

/-- How one run of the `__main__` block ends. -/
inductive RunOutcome where
  /-- Normal termination (exit code 0); the merged table written to the sheet. -/
  | ok : List Row → RunOutcome
  /-- An exception propagated out of `__main__` (non-zero exit); nothing
  was written to the sheet after the raise. -/
  | err : String → RunOutcome
deriving Repr, DecidableEq

/-- The `__main__` block: scrape with retry; on an empty frame raise
`RuntimeError` (re-raised by the `except` handler, so the process exits
non-zero and `upsert_sheet` is never reached); otherwise merge-and-write
and exit normally.  Sheet access itself is an external collaborator and is
assumed to succeed. -/
def main_run (env0 : Env) (w : PageWorld) (d : String) (existing : List Row) :
    RunOutcome :=
  let df := (scrape_with_retry env0 w d).result
  if df = [] then
    .err "Scraper found no data; failing to avoid silent green run."
  else .ok (upsert_sheet existing df)

/-- The spec example payload for the structured-data strategy, decoded:
`\x7b"title": "1g Gold Coin", "price": 6500\x7d`. -/
def examplePayload : Json :=
  .obj (.cons "title" (.str "1g Gold Coin") (.cons "price" (.num 6500) .nil))

/-- The same payload with the one name-like key the code can actually
match: `\x7b"name": "1g Gold Coin", "price": 6500\x7d`. -/
def examplePayloadNameKey : Json :=
  .obj (.cons "name" (.str "1g Gold Coin") (.cons "price" (.num 6500) .nil))

/-- A page that yields nothing to any strategy under any render mode. -/
def emptyWorld : PageWorld := ⟨fun _ => [], fun _ => []⟩

/-- A page that blocks headless rendering: the JSON strategy finds nothing,
and the DOM extraction collects a row only when the browser is NOT
headless. -/
def headfulOnlyWorld : PageWorld :=
  ⟨fun _ => [], fun headless_flag =>
    if headless_flag then [] else [("1g Gold Coin", "₹6500")]⟩

/-! ### Completeness of the fuelled walk (claim C10)

`walkF_spec` is a proof by mutual structural recursion: starting the
fuelled walk with `Json.nodes j` fuel plus any surplus always succeeds and
hands the surplus back unchanged — every payload node consumes exactly one
unit of fuel, i.e. the walk visits each node exactly once and terminates. -/

mutual
def walkF_spec : (j : Json) → (found : List NamePrice) → (extra : Nat) →
    walkF (Json.nodes j + extra) j found = some (extra, _walk_for_products j found)
  | .str s, found, extra => by
    have h : Json.nodes (.str s) + extra = extra + 1 := by
      simp only [Json.nodes]; omega
    rw [h]
    simp only [walkF, _walk_for_products]
  | .num n, found, extra => by
    have h : Json.nodes (.num n) + extra = extra + 1 := by
      simp only [Json.nodes]; omega
    rw [h]
    simp only [walkF, _walk_for_products]
  | .bool b, found, extra => by
    have h : Json.nodes (.bool b) + extra = extra + 1 := by
      simp only [Json.nodes]; omega
    rw [h]
    simp only [walkF, _walk_for_products]
  | .null, found, extra => by
    have h : Json.nodes .null + extra = extra + 1 := by
      simp only [Json.nodes]; omega
    rw [h]
    simp only [walkF, _walk_for_products]
  | .obj fields, found, extra => by
    have h : Json.nodes (.obj fields) + extra =
        (JsonFields.nodes fields + extra) + 1 := by
      simp only [Json.nodes]; omega
    rw [h]
    simp only [walkF, _walk_for_products]
    exact walkFieldsF_spec fields (found ++ objHit fields) extra
  | .arr elems, found, extra => by
    have h : Json.nodes (.arr elems) + extra =
        (JsonList.nodes elems + extra) + 1 := by
      simp only [Json.nodes]; omega
    rw [h]
    simp only [walkF, _walk_for_products]
    exact walkElemsF_spec elems found extra
def walkFieldsF_spec : (fields : JsonFields) → (found : List NamePrice) → (extra : Nat) →
    walkFieldsF (JsonFields.nodes fields + extra) fields found =
      some (extra, walkFields fields found)
  | .nil, found, extra => by
    have h : JsonFields.nodes .nil + extra = extra := by
      simp only [JsonFields.nodes]; omega
    rw [h]
    simp only [walkFieldsF, walkFields]
  | .cons k v rest, found, extra => by
    have h : JsonFields.nodes (.cons k v rest) + extra =
        Json.nodes v + (JsonFields.nodes rest + extra) := by
      simp only [JsonFields.nodes]; omega
    rw [h]
    simp only [walkFieldsF, walkFields]
    rw [walkF_spec v found (JsonFields.nodes rest + extra)]
    exact walkFieldsF_spec rest (_walk_for_products v found) extra
def walkElemsF_spec : (elems : JsonList) → (found : List NamePrice) → (extra : Nat) →
    walkElemsF (JsonList.nodes elems + extra) elems found =
      some (extra, walkElems elems found)
  | .nil, found, extra => by
    have h : JsonList.nodes .nil + extra = extra := by
      simp only [JsonList.nodes]; omega
    rw [h]
    simp only [walkElemsF, walkElems]
  | .cons j rest, found, extra => by
    have h : JsonList.nodes (.cons j rest) + extra =
        Json.nodes j + (JsonList.nodes rest + extra) := by
      simp only [JsonList.nodes]; omega
    rw [h]
    simp only [walkElemsF, walkElems]
    rw [walkF_spec j found (JsonList.nodes rest + extra)]
    exact walkElemsF_spec rest (_walk_for_products j found) extra
end

/-! ### Lemmas about the keep-last deduplication of the merge step -/

theorem hasKey_iff_exists (k : String × String) (l : List Row) :
    hasKey k l = true ↔ ∃ s ∈ l, rowKey s = k := by
  simp [hasKey, List.any_eq_true]

theorem hasKey_append (k : String × String) (l₁ l₂ : List Row) :
    hasKey k (l₁ ++ l₂) = (hasKey k l₁ || hasKey k l₂) := by
  simp [hasKey, List.any_append]

theorem dropDupLast_cons_of_dup {a : Row} {t : List Row}
    (h : hasKey (rowKey a) t = true) :
    drop_duplicates_keep_last (a :: t) = drop_duplicates_keep_last t := by
  simp [drop_duplicates_keep_last, h]

theorem dropDupLast_cons_of_new {a : Row} {t : List Row}
    (h : hasKey (rowKey a) t = false) :
    drop_duplicates_keep_last (a :: t) = a :: drop_duplicates_keep_last t := by
  simp [drop_duplicates_keep_last, h]

theorem mem_of_mem_dropDupLast {r : Row} :
    ∀ {l : List Row}, r ∈ drop_duplicates_keep_last l → r ∈ l := by
  intro l
  induction l with
  | nil => simp [drop_duplicates_keep_last]
  | cons a t ih =>
    cases h : hasKey (rowKey a) t with
    | true =>
      rw [dropDupLast_cons_of_dup h]
      intro hm
      exact List.mem_cons_of_mem a (ih hm)
    | false =>
      rw [dropDupLast_cons_of_new h]
      intro hm
      rcases List.mem_cons.mp hm with he | hm2
      · exact he ▸ List.mem_cons_self a t
      · exact List.mem_cons_of_mem a (ih hm2)

theorem dropDupLast_append (l₁ l₂ : List Row) :
    drop_duplicates_keep_last (l₁ ++ l₂) =
      (drop_duplicates_keep_last l₁).filter (fun r => !hasKey (rowKey r) l₂) ++
        drop_duplicates_keep_last l₂ := by
  induction l₁ with
  | nil => simp [drop_duplicates_keep_last]
  | cons a t ih =>
    rw [List.cons_append]
    cases h1 : hasKey (rowKey a) t with
    | true =>
      have hl : hasKey (rowKey a) (t ++ l₂) = true := by
        simp [hasKey_append, h1]
      rw [dropDupLast_cons_of_dup hl, dropDupLast_cons_of_dup h1, ih]
    | false =>
      cases h2 : hasKey (rowKey a) l₂ with
      | true =>
        have hl : hasKey (rowKey a) (t ++ l₂) = true := by
          simp [hasKey_append, h1, h2]
        rw [dropDupLast_cons_of_dup hl, dropDupLast_cons_of_new h1, ih]
        simp [List.filter_cons, h2]
      | false =>
        have hl : hasKey (rowKey a) (t ++ l₂) = false := by
          simp [hasKey_append, h1, h2]
        rw [dropDupLast_cons_of_new hl, dropDupLast_cons_of_new h1, ih]
        simp [List.filter_cons, h2]

theorem nodup_keys_dropDupLast (l : List Row) :
    ((drop_duplicates_keep_last l).map rowKey).Nodup := by
  induction l with
  | nil => simp [drop_duplicates_keep_last]
  | cons a t ih =>
    cases h : hasKey (rowKey a) t with
    | true => rw [dropDupLast_cons_of_dup h]; exact ih
    | false =>
      rw [dropDupLast_cons_of_new h]
      simp only [List.map_cons, List.nodup_cons]
      refine ⟨?_, ih⟩
      intro hmem
      rcases List.mem_map.mp hmem with ⟨s, hs, hks⟩
      have h2 : hasKey (rowKey a) t = true :=
        (hasKey_iff_exists _ _).mpr ⟨s, mem_of_mem_dropDupLast hs, hks⟩
      rw [h] at h2
      exact Bool.false_ne_true h2

theorem dropDupLast_eq_self_of_nodup :
    ∀ {l : List Row}, (l.map rowKey).Nodup → drop_duplicates_keep_last l = l := by
  intro l
  induction l with
  | nil => simp [drop_duplicates_keep_last]
  | cons a t ih =>
    intro hnd
    simp only [List.map_cons, List.nodup_cons] at hnd
    have h : hasKey (rowKey a) t = false := by
      cases h : hasKey (rowKey a) t with
      | false => rfl
      | true =>
        rcases (hasKey_iff_exists _ _).mp h with ⟨s, hs, hks⟩
        exact absurd (List.mem_map.mpr ⟨s, hs, hks⟩) hnd.1
    rw [dropDupLast_cons_of_new h, ih hnd.2]

theorem dropDupLast_ne_nil :
    ∀ {l : List Row}, l ≠ [] → drop_duplicates_keep_last l ≠ [] := by
  intro l
  induction l with
  | nil => intro h; exact absurd rfl h
  | cons a t ih =>
    intro _
    cases h : hasKey (rowKey a) t with
    | true =>
      have ht : t ≠ [] := by
        rcases (hasKey_iff_exists _ _).mp h with ⟨s, hs, _⟩
        exact List.ne_nil_of_mem hs
      rw [dropDupLast_cons_of_dup h]
      exact ih ht
    | false =>
      rw [dropDupLast_cons_of_new h]
      exact List.cons_ne_nil a _

theorem filter_not_hasKey_self (l : List Row) :
    (drop_duplicates_keep_last l).filter (fun r => !hasKey (rowKey r) l) = [] := by
  rw [List.filter_eq_nil_iff]
  intro r hr
  have : hasKey (rowKey r) l = true :=
    (hasKey_iff_exists _ _).mpr ⟨r, mem_of_mem_dropDupLast hr, rfl⟩
  simp [this]

theorem dropDupLast_filter_comm (p : Row → Bool)
    (hp : ∀ r s, rowKey r = rowKey s → p r = p s) :
    ∀ l : List Row,
      (drop_duplicates_keep_last l).filter p =
        drop_duplicates_keep_last (l.filter p) := by
  intro l
  induction l with
  | nil => simp [drop_duplicates_keep_last]
  | cons a t ih =>
    have hkey : hasKey (rowKey a) t = true →
        hasKey (rowKey a) (t.filter p) = p a := by
      intro h
      rcases (hasKey_iff_exists _ _).mp h with ⟨s, hs, hks⟩
      cases hpa : p a with
      | true =>
        refine (hasKey_iff_exists _ _).mpr ⟨s, ?_, hks⟩
        exact List.mem_filter.mpr ⟨hs, by rw [hp s a hks]; exact hpa⟩
      | false =>
        cases h2 : hasKey (rowKey a) (t.filter p) with
        | false => rfl
        | true =>
          rcases (hasKey_iff_exists _ _).mp h2 with ⟨u, hu, hku⟩
          have := (List.mem_filter.mp hu).2
          rw [hp u a hku, hpa] at this
          exact absurd this (by simp)
    have hkey2 : hasKey (rowKey a) t = false →
        hasKey (rowKey a) (t.filter p) = false := by
      intro h
      cases h2 : hasKey (rowKey a) (t.filter p) with
      | false => rfl
      | true =>
        rcases (hasKey_iff_exists _ _).mp h2 with ⟨u, hu, hku⟩
        have : hasKey (rowKey a) t = true :=
          (hasKey_iff_exists _ _).mpr ⟨u, (List.mem_filter.mp hu).1, hku⟩
        rw [h] at this
        exact absurd this (by simp)
    simp only [drop_duplicates_keep_last, List.filter_cons]
    cases h : hasKey (rowKey a) t with
    | true =>
      cases hpa : p a with
      | true =>
        have h3 := hkey h
        rw [hpa] at h3
        simp only [if_pos rfl, drop_duplicates_keep_last, h3, if_true]
        simpa [h] using ih
      | false => simpa [h, hpa] using ih
    | false =>
      have h3 := hkey2 h
      cases hpa : p a with
      | true =>
        simp only [hpa, if_true, drop_duplicates_keep_last, h3, if_false,
          List.filter_cons, h]
        simpa [hpa] using congrArg (List.cons a) ih
      | false => simpa [h, hpa] using ih

theorem filter_key_of_nodup (k : String × String) (z : Row) :
    ∀ {l : List Row}, z ∈ l → rowKey z = k → (l.map rowKey).Nodup →
      l.filter (fun r => decide (rowKey r = k)) = [z] := by
  intro l
  induction l with
  | nil => intro h; exact absurd h (List.not_mem_nil z)
  | cons a t ih =>
    intro hz hk hnd
    simp only [List.map_cons, List.nodup_cons] at hnd
    rcases List.mem_cons.mp hz with he | hmem
    · subst he
      have hnot : ∀ r ∈ t, rowKey r ≠ k := by
        intro r hr hrk
        exact hnd.1 (List.mem_map.mpr ⟨r, hr, hrk ▸ hk ▸ rfl⟩)
      rw [List.filter_cons_of_pos (by simp [hk])]
      rw [List.filter_eq_nil_iff.mpr (by intro r hr; simp [hnot r hr])]
    · have hka : rowKey a ≠ k := by
        intro hak
        exact hnd.1 (List.mem_map.mpr ⟨z, hmem, hk ▸ hak ▸ rfl⟩)
      rw [List.filter_cons_of_neg (by simp [hka])]
      exact ih hmem hk hnd.2

/-! ### Lemmas about the dictionary-style dedup of the extraction side -/

theorem any_key_eq_true_iff (m : List NamePrice) (k : String) :
    (m.any (fun e => decide (e.1 = k)) = true) ↔ k ∈ m.map Prod.fst := by
  rw [List.any_eq_true]
  constructor
  · rintro ⟨e, he, hek⟩
    exact List.mem_map.mpr ⟨e, he, by simpa using hek⟩
  · intro h
    rcases List.mem_map.mp h with ⟨e, he, hek⟩
    exact ⟨e, he, by simpa using hek⟩

theorem keys_dict_update_mem {m : List NamePrice} {c : NamePrice}
    (h : m.any (fun e => decide (e.1 = c.1)) = true) :
    (dict_update m c).map Prod.fst = m.map Prod.fst := by
  unfold dict_update
  rw [if_pos h, List.map_map]
  apply List.map_congr_left
  intro e _
  by_cases he : e.1 = c.1 <;> simp [he]

theorem keys_dict_update_new {m : List NamePrice} {c : NamePrice}
    (h : m.any (fun e => decide (e.1 = c.1)) = false) :
    (dict_update m c).map Prod.fst = m.map Prod.fst ++ [c.1] := by
  unfold dict_update
  rw [if_neg (by simp [h]), List.map_append]
  rfl

theorem nodup_keys_dict_update {m : List NamePrice} (c : NamePrice)
    (h : (m.map Prod.fst).Nodup) : ((dict_update m c).map Prod.fst).Nodup := by
  cases ha : m.any (fun e => decide (e.1 = c.1)) with
  | true => rw [keys_dict_update_mem ha]; exact h
  | false =>
    rw [keys_dict_update_new ha]
    have hc : c.1 ∉ m.map Prod.fst := by
      intro hcm
      exact absurd ((any_key_eq_true_iff m c.1).mpr hcm) (by simp [ha])
    simp [List.nodup_append, h, hc]

theorem nodup_keys_dict_insert_all :
    ∀ (l m : List NamePrice), (m.map Prod.fst).Nodup →
      ((dict_insert_all m l).map Prod.fst).Nodup := by
  intro l
  induction l with
  | nil => intro m h; exact h
  | cons c rest ih =>
    intro m h
    exact ih (dict_update m c) (nodup_keys_dict_update c h)

theorem dict_insert_all_of_disjoint :
    ∀ (l m : List NamePrice), (l.map Prod.fst).Nodup →
      (∀ k ∈ m.map Prod.fst, k ∉ l.map Prod.fst) →
      dict_insert_all m l = m ++ l := by
  intro l
  induction l with
  | nil => intro m _ _; simp [dict_insert_all]
  | cons c rest ih =>
    intro m hnd hdisj
    have hc : c.1 ∉ m.map Prod.fst := by
      intro hcm
      exact hdisj c.1 hcm (by simp)
    have ha : m.any (fun e => decide (e.1 = c.1)) = false := by
      cases ha : m.any (fun e => decide (e.1 = c.1)) with
      | false => rfl
      | true => exact absurd ((any_key_eq_true_iff m c.1).mp ha) hc
    have hupd : dict_update m c = m ++ [c] := by
      unfold dict_update
      rw [if_neg (by simp [ha])]
    simp only [List.map_cons, List.nodup_cons] at hnd
    have hstep : dict_insert_all (m ++ [c]) rest = (m ++ [c]) ++ rest := by
      refine ih (m ++ [c]) hnd.2 ?_
      intro k hk
      rw [List.map_append] at hk
      rcases List.mem_append.mp hk with hkm | hkc
      · intro hkr
        exact hdisj k hkm (List.mem_cons_of_mem _ hkr)
      · rcases List.mem_singleton.mp hkc with rfl
        exact hnd.1
    calc dict_insert_all m (c :: rest)
        = dict_insert_all (dict_update m c) rest := rfl
      _ = dict_insert_all (m ++ [c]) rest := by rw [hupd]
      _ = (m ++ [c]) ++ rest := hstep
      _ = m ++ c :: rest := by simp

theorem dropDupLast_all_key_append_single (k : String × String) (z : Row) :
    ∀ (l : List Row), (∀ r ∈ l, rowKey r = k) → rowKey z = k →
      drop_duplicates_keep_last (l ++ [z]) = [z] := by
  intro l
  induction l with
  | nil =>
    intro _ _
    simp [drop_duplicates_keep_last, hasKey]
  | cons a t ih =>
    intro hall hz
    have hk : hasKey (rowKey a) (t ++ [z]) = true := by
      refine (hasKey_iff_exists _ _).mpr ⟨z, by simp, ?_⟩
      rw [hz, hall a (List.mem_cons_self a t)]
    rw [List.cons_append, dropDupLast_cons_of_dup hk]
    exact ih (fun r hr => hall r (List.mem_cons_of_mem a hr)) hz

theorem dropDupLast_idem_append (l l₂ : List Row) :
    drop_duplicates_keep_last (drop_duplicates_keep_last l ++ l₂) =
      drop_duplicates_keep_last (l ++ l₂) := by
  rw [dropDupLast_append (drop_duplicates_keep_last l) l₂, dropDupLast_append l l₂,
    dropDupLast_eq_self_of_nodup (nodup_keys_dropDupLast l)]

theorem dropDupLast_append_self (l R : List Row) :
    drop_duplicates_keep_last (l ++ (R ++ R)) = drop_duplicates_keep_last (l ++ R) := by
  rw [dropDupLast_append l (R ++ R), dropDupLast_append l R]
  have h1 : (fun r => !hasKey (rowKey r) (R ++ R)) =
      (fun r : Row => !hasKey (rowKey r) R) := by
    funext r
    rw [hasKey_append, Bool.or_self]
  have h2 : drop_duplicates_keep_last (R ++ R) = drop_duplicates_keep_last R := by
    rw [dropDupLast_append R R, filter_not_hasKey_self, List.nil_append]
  rw [h1, h2]

/-! ### The claims -/

/-- C1 (status: code bug).  The claim says the walk emits a candidate for
every object carrying any name-like key (name, title, product name, label,
sku name) together with any price-like key, and in particular extracts
`["1g Gold Coin", "₹6500"]` from `\x7b"title": "1g Gold Coin", "price": 6500\x7d`.
In the code, `next((lower.get(k) for k in [...]), None)` returns the first
GENERATED value — `lower.get` of the first candidate, even when that is
`None` — so only the literal keys `name` / `price` are ever matched: the
walk emits nothing for the title/price payload (first conjunct), while the
same payload keyed `name` does produce the record (second conjunct). -/
theorem c1_walk_misses_title_price_payload :
    _walk_for_products examplePayload [] = [] ∧
      _walk_for_products examplePayloadNameKey [] = [("1g Gold Coin", "₹6500")] :=
  ⟨by decide, by decide⟩

/-- C2: for every persisted store and every scraped RecordSet (unique merge
keys, as every scraped set has), after the merge the (date, product name)
key is unique in the resulting store; and whenever the store held (D, P, X)
while today scraped (D, P, Y) with Y ≠ X, the merged store has exactly one
row for (D, P) and its price is Y (the scraped value replaces the stored
one). -/
theorem c2_merge_key_unique_today_wins (S R : List Row)
    (hR : (R.map rowKey).Nodup) :
    ((upsert_sheet S R).map rowKey).Nodup ∧
      ∀ D P X Y : String, (⟨D, P, X⟩ : Row) ∈ S → (⟨D, P, Y⟩ : Row) ∈ R →
        Y ≠ X →
        (upsert_sheet S R).filter (fun r => decide (rowKey r = (D, P))) =
          [⟨D, P, Y⟩] := by
  constructor
  · by_cases hS : S = []
    · subst hS
      have h0 : upsert_sheet [] R = R := by simp [upsert_sheet]
      rw [h0]
      exact hR
    · have hU : upsert_sheet S R = drop_duplicates_keep_last (S ++ R) := by
        unfold upsert_sheet
        rw [if_neg hS]
      rw [hU]
      exact nodup_keys_dropDupLast _
  · intro D P X Y hXmem hYmem _
    have hS : S ≠ [] := List.ne_nil_of_mem hXmem
    have hU : upsert_sheet S R = drop_duplicates_keep_last (S ++ R) := by
      unfold upsert_sheet
      rw [if_neg hS]
    rw [hU]
    have hp : ∀ r s : Row, rowKey r = rowKey s →
        (decide (rowKey r = (D, P)) : Bool) = decide (rowKey s = (D, P)) := by
      intro r s hrs
      rw [hrs]
    rw [dropDupLast_filter_comm _ hp (S ++ R), List.filter_append,
      filter_key_of_nodup (D, P) ⟨D, P, Y⟩ hYmem rfl hR]
    refine dropDupLast_all_key_append_single (D, P) ⟨D, P, Y⟩ _ ?_ rfl
    intro r hr
    have := List.of_mem_filter hr
    simpa using this

theorem c2_merge_key_unique_today_wins_witness :
    (([(⟨"2026-02-02", "1g Gold Coin", "₹6500"⟩ : Row)].map rowKey).Nodup ∧
      (⟨"2026-02-02", "1g Gold Coin", "₹6400"⟩ : Row) ∈
        [(⟨"2026-02-02", "1g Gold Coin", "₹6400"⟩ : Row)] ∧
      (⟨"2026-02-02", "1g Gold Coin", "₹6500"⟩ : Row) ∈
        [(⟨"2026-02-02", "1g Gold Coin", "₹6500"⟩ : Row)] ∧
      "₹6500" ≠ "₹6400") ∧
    (((upsert_sheet [⟨"2026-02-02", "1g Gold Coin", "₹6400"⟩]
        [⟨"2026-02-02", "1g Gold Coin", "₹6500"⟩]).map rowKey).Nodup ∧
      (upsert_sheet [⟨"2026-02-02", "1g Gold Coin", "₹6400"⟩]
        [⟨"2026-02-02", "1g Gold Coin", "₹6500"⟩]).filter
          (fun r => decide (rowKey r = ("2026-02-02", "1g Gold Coin"))) =
        [⟨"2026-02-02", "1g Gold Coin", "₹6500"⟩]) :=
  ⟨⟨by decide, by decide, by decide, by decide⟩,
    ⟨(c2_merge_key_unique_today_wins
        [⟨"2026-02-02", "1g Gold Coin", "₹6400"⟩]
        [⟨"2026-02-02", "1g Gold Coin", "₹6500"⟩] (by decide)).1,
      (c2_merge_key_unique_today_wins
        [⟨"2026-02-02", "1g Gold Coin", "₹6400"⟩]
        [⟨"2026-02-02", "1g Gold Coin", "₹6500"⟩] (by decide)).2
        "2026-02-02" "1g Gold Coin" "₹6400" "₹6500"
        (by decide) (by decide) (by decide)⟩⟩

/-- C3: when the JSON attempt and the DOM attempt both produce empty
frames (the retried DOM attempt repeats the DOM call, so it is empty too
and the whole ladder is empty), the run raises the RuntimeError — a
non-zero exit — and never reaches the sheet write. -/
theorem c3_empty_ladder_raises (env0 : Env) (w : PageWorld) (d : String)
    (existing : List Row)
    (h1 : (scrape_once_json (HEADLESS env0) w d).1 = [])
    (h2 : (scrape_once_dom (HEADLESS env0) w d).1 = []) :
    main_run env0 w d existing =
      .err "Scraper found no data; failing to avoid silent green run." := by
  have hres : (scrape_with_retry env0 w d).result = [] := by
    simp only [scrape_with_retry, h1, h2]
    cases HEADLESS env0 <;> simp
  simp [main_run, hres]

theorem c3_empty_ladder_raises_witness :
    ((scrape_once_json (HEADLESS []) emptyWorld "2026-02-03").1 = [] ∧
      (scrape_once_dom (HEADLESS []) emptyWorld "2026-02-03").1 = []) ∧
      main_run [] emptyWorld "2026-02-03" [] =
        .err "Scraper found no data; failing to avoid silent green run." :=
  ⟨⟨by decide, by decide⟩,
    c3_empty_ladder_raises [] emptyWorld "2026-02-03" [] (by decide) (by decide)⟩

/-- C4 (status: code bug).  The claim says that when the default render
variant yields an empty RecordSet and the alternate (headful) variant a
non-empty one, the overall output equals the alternate variant result.  On
a page that blocks headless rendering, the headless attempts are empty and
a headful DOM scrape would return the product row (second conjunct) — yet
`scrape_with_retry` returns the empty frame (first conjunct), because its
final retry launches with the unchanged module-level `HEADLESS` constant
and so re-runs the default render mode instead of the alternate one. -/
theorem c4_alternate_variant_result_lost :
    (scrape_with_retry [] headfulOnlyWorld "2026-02-03").result = [] ∧
      (scrape_once_dom false headfulOnlyWorld "2026-02-03").1 =
        [⟨"2026-02-03", "1g Gold Coin", "₹6500"⟩] :=
  ⟨by decide, by decide⟩

/-- C5 (status: code bug).  The claim says the final escalation attempt
actually launches the browser in the alternate, non-headless mode.  With an
import-time environment that leaves the module constant `HEADLESS = true`
and a page yielding nothing (headless), all three launches — including the
supposedly headful retry — pass `headless = true`: writing
`os.environ["HEADLESS"] = "false"` never rebinds the module-level constant
that `scrape_once_dom` passes to the launch. -/
theorem c5_retry_launches_remain_headless :
    (scrape_with_retry [] headfulOnlyWorld "2026-02-03").launches =
      [true, true, true] := by
  decide

/-- C6: merging an empty persisted store with a RecordSet R yields exactly
R (the rows, carrying their date column, are written as-is). -/
theorem c6_upsert_into_empty_store (R : List Row) : upsert_sheet [] R = R := by
  simp [upsert_sheet]

/-- C7: re-running the reconciliation with the same scraped RecordSet
(unique merge keys, as every scraped set has) is idempotent. -/
theorem c7_reconcile_idempotent (S R : List Row)
    (hR : (R.map rowKey).Nodup) :
    upsert_sheet (upsert_sheet S R) R = upsert_sheet S R := by
  by_cases hS : S = []
  · subst hS
    have h0 : upsert_sheet [] R = R := by simp [upsert_sheet]
    rw [h0]
    by_cases hRe : R = []
    · simp [upsert_sheet, hRe]
    · unfold upsert_sheet
      rw [if_neg hRe, dropDupLast_append R R, filter_not_hasKey_self,
        List.nil_append, dropDupLast_eq_self_of_nodup hR]
  · have hU : upsert_sheet S R = drop_duplicates_keep_last (S ++ R) := by
      unfold upsert_sheet
      rw [if_neg hS]
    have hT : drop_duplicates_keep_last (S ++ R) ≠ [] :=
      dropDupLast_ne_nil (fun h => hS (List.append_eq_nil.mp h).1)
    rw [hU]
    unfold upsert_sheet
    rw [if_neg hT, dropDupLast_idem_append, List.append_assoc,
      dropDupLast_append_self]

theorem c7_reconcile_idempotent_witness :
    (([(⟨"2026-02-03", "A", "2"⟩ : Row)].map rowKey).Nodup) ∧
      upsert_sheet (upsert_sheet [⟨"2026-02-02", "A", "1"⟩] [⟨"2026-02-03", "A", "2"⟩])
          [⟨"2026-02-03", "A", "2"⟩] =
        upsert_sheet [⟨"2026-02-02", "A", "1"⟩] [⟨"2026-02-03", "A", "2"⟩] :=
  ⟨by decide,
    c7_reconcile_idempotent [⟨"2026-02-02", "A", "1"⟩] [⟨"2026-02-03", "A", "2"⟩]
      (by decide)⟩

/-- C8: the merge never alters rows dated differently from today — the
other-dated part of the merged store is exactly the stored other-dated
rows, thinned only by the generic keep-last rule (a row disappears exactly
when a later stored row carries the same (date, product name) key), with
values and relative order untouched. -/
theorem c8_preserves_other_dates (S R : List Row) (d : String)
    (hR : ∀ r ∈ R, r.date = d) :
    (upsert_sheet S R).filter (fun r => !decide (r.date = d)) =
      drop_duplicates_keep_last (S.filter (fun r => !decide (r.date = d))) := by
  have hRf : R.filter (fun r => !decide (r.date = d)) = [] := by
    rw [List.filter_eq_nil_iff]
    intro r hr
    simp [hR r hr]
  by_cases hS : S = []
  · subst hS
    have h0 : upsert_sheet [] R = R := by simp [upsert_sheet]
    rw [h0, hRf]
    simp [drop_duplicates_keep_last]
  · have hU : upsert_sheet S R = drop_duplicates_keep_last (S ++ R) := by
      unfold upsert_sheet
      rw [if_neg hS]
    rw [hU]
    have hp : ∀ r s : Row, rowKey r = rowKey s →
        (!decide (r.date = d) : Bool) = !decide (s.date = d) := by
      intro r s hrs
      have hd : r.date = s.date := congrArg Prod.fst hrs
      rw [hd]
    rw [dropDupLast_filter_comm _ hp (S ++ R), List.filter_append, hRf,
      List.append_nil]

theorem c8_preserves_other_dates_witness :
    (∀ r ∈ [(⟨"2026-02-03", "A", "2"⟩ : Row)], r.date = "2026-02-03") ∧
      (upsert_sheet [⟨"2026-02-02", "A", "1"⟩, ⟨"2026-02-02", "B", "3"⟩]
          [⟨"2026-02-03", "A", "2"⟩]).filter
            (fun r => !decide (r.date = "2026-02-03")) =
        drop_duplicates_keep_last
          ([⟨"2026-02-02", "A", "1"⟩, ⟨"2026-02-02", "B", "3"⟩].filter
            (fun r => !decide (r.date = "2026-02-03"))) :=
  ⟨by decide,
    c8_preserves_other_dates [⟨"2026-02-02", "A", "1"⟩, ⟨"2026-02-02", "B", "3"⟩]
      [⟨"2026-02-03", "A", "2"⟩] "2026-02-03" (by decide)⟩

/-- C9: the extraction-side dedup by product name is idempotent. -/
theorem c9_dedup_by_name_idempotent (l : List NamePrice) :
    dedup_by_product_name (dedup_by_product_name l) = dedup_by_product_name l := by
  unfold dedup_by_product_name
  have h1 : ((dict_insert_all [] l).map Prod.fst).Nodup :=
    nodup_keys_dict_insert_all l [] (by simp)
  have h2 := dict_insert_all_of_disjoint (dict_insert_all [] l) [] h1 (by simp)
  simpa using h2

/-- C10: the recursive payload walk terminates on every finite payload,
visiting each node exactly once: with fuel equal to the number of payload
nodes, the fuelled walk completes with zero fuel left and returns exactly
the unfuelled walk result. -/
theorem c10_walk_terminates_with_node_fuel (j : Json) (found : List NamePrice) :
    walkF (Json.nodes j) j found = some (0, _walk_for_products j found) := by
  have h := walkF_spec j found 0
  simpa using h
